import Mathlib

/-!
Verification of the solagram client-side data hooks.

The development shallowly embeds the four data hooks of the repository
(`useUserProfile`, `usePost`, `useComments`, `useProfiles`): program-derived
addresses (PDAs) become an injective inductive over the seed shapes the code
uses, the SHA-256 content digest is implemented bit-for-bit, JavaScript `Map`s
become association lists with overwrite semantics, the stable
`Array.prototype.sort` becomes `List.insertionSort` with the source's
comparator, and the stateful hook bodies become explicit state-passing step
functions (`begin...` models the code up to the first `await`, `complete...`
models the continuation for each possible outcome of the awaited remote call;
the scheduling model is single-threaded cooperative, so these are the only
interleaving points).
-/

namespace Solagram

/-! ### SHA-256, as used by `crypto.createHash('sha256')` in the hooks.
Bytes and 32-bit words are `Nat`s reduced mod `2^32` where overflow matters. -/

def w32 : Nat := 2 ^ 32

def add32 (a b : Nat) : Nat := (a + b) % w32

def rotr (n x : Nat) : Nat := ((x >>> n) ||| (x <<< (32 - n))) % w32

def not32 (x : Nat) : Nat := x ^^^ (w32 - 1)

def bsig0 (x : Nat) : Nat := rotr 2 x ^^^ rotr 13 x ^^^ rotr 22 x

def bsig1 (x : Nat) : Nat := rotr 6 x ^^^ rotr 11 x ^^^ rotr 25 x

def ssig0 (x : Nat) : Nat := rotr 7 x ^^^ rotr 18 x ^^^ (x >>> 3)

def ssig1 (x : Nat) : Nat := rotr 17 x ^^^ rotr 19 x ^^^ (x >>> 10)

def chF (x y z : Nat) : Nat := (x &&& y) ^^^ (not32 x &&& z)

def majF (x y z : Nat) : Nat := (x &&& y) ^^^ (x &&& z) ^^^ (y &&& z)

/-- The 64 SHA-256 round constants of FIPS 180-4, written in decimal. -/
def shaK : List Nat :=
  [1116352408, 1899447441, 3049323471, 3921009573, 961987163, 1508970993,
   2453635748, 2870763221, 3624381080, 310598401, 607225278, 1426881987,
   1925078388, 2162078206, 2614888103, 3248222580, 3835390401, 4022224774,
   264347078, 604807628, 770255983, 1249150122, 1555081692, 1996064986,
   2554220882, 2821834349, 2952996808, 3210313671, 3336571891, 3584528711,
   113926993, 338241895, 666307205, 773529912, 1294757372, 1396182291,
   1695183700, 1986661051, 2177026350, 2456956037, 2730485921, 2820302411,
   3259730800, 3345764771, 3516065817, 3600352804, 4094571909, 275423344,
   430227734, 506948616, 659060556, 883997877, 958139571, 1322822218,
   1537002063, 1747873779, 1955562222, 2024104815, 2227730452, 2361852424,
   2428436474, 2756734187, 3204031479, 3329325298]

structure Hash8 where
  a : Nat
  b : Nat
  c : Nat
  d : Nat
  e : Nat
  f : Nat
  g : Nat
  h : Nat
deriving DecidableEq, Repr

/-- The eight SHA-256 initial hash values of FIPS 180-4, written in decimal. -/
def shaH0 : Hash8 :=
  ⟨1779033703, 3144134277, 1013904242, 2773480762,
   1359893119, 2600822924, 528734635, 1541459225⟩

/-- Pad a byte message to a multiple of 64 bytes: `0x80`, zeros, 64-bit big-endian bit length. -/
def padMessage (ms : List Nat) : List Nat :=
  let bitLen := ms.length * 8
  let zeros := (119 - ms.length % 64) % 64
  ms ++ [0x80] ++ List.replicate zeros 0 ++
    (List.range 8).map (fun i => (bitLen >>> (8 * (7 - i))) % 256)

/-- Split a padded message into 64-byte blocks. -/
def blocksOf (ms : List Nat) : List (List Nat) :=
  (List.range (ms.length / 64)).map (fun i => (ms.drop (64 * i)).take 64)

/-- Interpret a 64-byte block as 16 big-endian 32-bit words. -/
def toWords (block : List Nat) : List Nat :=
  (List.range 16).map (fun i =>
    block.getD (4 * i) 0 * 0x1000000 + block.getD (4 * i + 1) 0 * 0x10000 +
    block.getD (4 * i + 2) 0 * 0x100 + block.getD (4 * i + 3) 0)

/-- Message schedule: extend 16 words to 64. -/
def schedule (ws : List Nat) : List Nat :=
  (List.range 48).foldl (fun w _ =>
    let n := w.length
    w ++ [add32 (add32 (ssig1 (w.getD (n - 2) 0)) (w.getD (n - 7) 0))
                (add32 (ssig0 (w.getD (n - 15) 0)) (w.getD (n - 16) 0))]) ws

def compressBlock (hv : Hash8) (block : List Nat) : Hash8 :=
  let w := schedule (toWords block)
  let s := (List.range 64).foldl (fun s i =>
    let t1 := add32 s.h (add32 (bsig1 s.e) (add32 (chF s.e s.f s.g)
                (add32 (shaK.getD i 0) (w.getD i 0))))
    let t2 := add32 (bsig0 s.a) (majF s.a s.b s.c)
    ⟨add32 t1 t2, s.a, s.b, s.c, add32 s.d t1, s.e, s.f, s.g⟩) hv
  ⟨add32 hv.a s.a, add32 hv.b s.b, add32 hv.c s.c, add32 hv.d s.d,
   add32 hv.e s.e, add32 hv.f s.f, add32 hv.g s.g, add32 hv.h s.h⟩

def word4 (x : Nat) : List Nat :=
  [(x >>> 24) % 256, (x >>> 16) % 256, (x >>> 8) % 256, x % 256]

/-- SHA-256 digest (32 bytes) of a byte message. -/
def sha256 (ms : List Nat) : List Nat :=
  let hv := (blocksOf (padMessage ms)).foldl compressBlock shaH0
  word4 hv.a ++ word4 hv.b ++ word4 hv.c ++ word4 hv.d ++
  word4 hv.e ++ word4 hv.f ++ word4 hv.g ++ word4 hv.h

/-- UTF-8 encoding of one code point, as `Buffer.from(s, 'utf8')`. -/
def utf8EncodeChar (c : Nat) : List Nat :=
  if c < 0x80 then [c]
  else if c < 0x800 then [0xC0 ||| (c >>> 6), 0x80 ||| (c &&& 0x3F)]
  else if c < 0x10000 then
    [0xE0 ||| (c >>> 12), 0x80 ||| ((c >>> 6) &&& 0x3F), 0x80 ||| (c &&& 0x3F)]
  else
    [0xF0 ||| (c >>> 18), 0x80 ||| ((c >>> 12) &&& 0x3F),
     0x80 ||| ((c >>> 6) &&& 0x3F), 0x80 ||| (c &&& 0x3F)]

def utf8Bytes (s : String) : List Nat :=
  (s.data.map (fun c => utf8EncodeChar c.toNat)).flatten

/-- First 4 bytes of the SHA-256 digest of a string, the content digest used in PDA seeds:
`crypto.createHash('sha256').update(Buffer.from(s, 'utf8')).digest().slice(0, 4)`. -/
def shaPrefix4 (s : String) : List Nat :=
  (sha256 (utf8Bytes s)).take 4

/-! ### Identities and derived storage addresses.

A wallet public key is modelled as an opaque identifier with decidable
equality (`PubKey`); `toString` on it (used by the source to key JavaScript
maps and the `lastWalletRef`) is modelled by `keyString`, injective like
base58 rendering of a key.

`PublicKey.findProgramAddressSync(seeds, PROGRAM_ID)` is modelled by an
inductive with one injective constructor per seed shape the source uses, with
the seed components as constructor fields in source order.  Injectivity of
the constructors models the collision-resistance of on-chain PDA derivation
(the string labels "profile" / "post" / "comment" / "follow" give domain
separation between the shapes). -/

abbrev PubKey := Nat

def keyString (k : PubKey) : String := toString k

/-- Derived addresses, one constructor per `findProgramAddressSync` seed shape:
`profilePda w`     ~ seeds `["profile", w]`;
`postPda w d p`    ~ seeds `["post", w, d, p]` (d = 4-byte content digest of the media URI);
`commentPda p w d` ~ seeds `["comment", p, w, d]` (d = 4-byte content digest of the comment);
`followPda a b`    ~ seeds `["follow", a, b]` (ordered pair: follower then following). -/
inductive Addr where
  | profilePda : PubKey → Addr
  | postPda : PubKey → List Nat → Addr → Addr
  | commentPda : Addr → PubKey → List Nat → Addr
  | followPda : PubKey → PubKey → Addr
deriving DecidableEq, Repr

/-- Profile PDA: seeds `[Buffer.from("profile"), owner.toBuffer()]` (useUserProfile.ts:48-51). -/
def deriveProfilePda (owner : PubKey) : Addr := .profilePda owner

/-- Post PDA (usePost.ts:57-65): `null` without a connected wallet, else seeds
`["post", wallet.publicKey, sha256(mediaUri)[0:4], profilePda]`. -/
def derivePostPda (wallet : Option PubKey) (mediaUri : String) (profilePda : Addr) : Option Addr :=
  match wallet with
  | none => none
  | some w => some (.postPda w (shaPrefix4 mediaUri) profilePda)

/-- Comment PDA (useComments.ts:188-196): `null` without a connected wallet, else seeds
`["comment", postPda, wallet.publicKey, sha256(content)[0:4]]`. -/
def deriveCommentPda (wallet : Option PubKey) (postPda : Addr) (content : String) : Option Addr :=
  match wallet with
  | none => none
  | some w => some (.commentPda postPda w (shaPrefix4 content))

/-- Follow PDA (useProfiles.ts:326-332): seeds `["follow", follower, following]`. -/
def deriveFollowPda (follower : PubKey) (following : PubKey) : Addr :=
  .followPda follower following

/-! ### JavaScript `Map` model: association lists, `set` overwrites, `get` looks up. -/

/-- `m.set(k, v)`: overwrite the entry for `k` if present, else append. -/
def mapSet {β : Type} (m : List (PubKey × β)) (k : PubKey) (v : β) : List (PubKey × β) :=
  if (m.find? (fun e => e.1 = k)).isSome then
    m.map (fun e => if e.1 = k then (k, v) else e)
  else m ++ [(k, v)]

/-- `m.get(k)`. -/
def mapGet {β : Type} (m : List (PubKey × β)) (k : PubKey) : Option β :=
  (m.find? (fun e => e.1 = k)).map (fun e => e.2)

/-! ### The posts pipeline: `fetchAllPosts` (usePost.ts:154-244).

A fetched post item from `program.account.post.all()` carries its account
address (`publicKey`) and the decoded account; only the fields the pipeline
reads are modelled.  The remote side is a `RemoteEnv`: the scan result, the
per-address answer of `getMultipleAccountsInfo`, and the
`program.coder.accounts.decode("userProfile", ...)` decoder restricted to the
`handle` field that the pipeline uses (decode failure = `none`, modelling the
caught exception).  `fetchAllPosts` returns the decorated sorted list
together with the list of multi-address batch reads it issued, one entry per
`getMultipleAccountsInfo` call site. -/

structure RawPost where
  addr : Addr
  creator : PubKey
  content : String
  mediaUri : String
  createdAt : Int
deriving DecidableEq, Repr

structure DecoratedPost where
  post : RawPost
  creatorHandle : String
deriving DecidableEq, Repr

structure BatchRead where
  addresses : List Addr
deriving DecidableEq, Repr

structure RemoteEnv where
  scanPosts : List RawPost
  accountData : Addr → Option (List Nat)
  decodeProfileHandle : List Nat → Option String

/-- Lines 171-178: `uniqueCreators` map keyed by `creator.toString()`, insert only when
absent, iterated in insertion order. -/
def uniqueCreators (posts : List RawPost) : List PubKey :=
  posts.foldl (fun acc p => if p.creator ∈ acc then acc else acc ++ [p.creator]) []

/-- Lines 196-217: decode each returned profile account, recover the creator by reverse
lookup of the PDA in `creatorToPda`, and record `creator → handle`; decode failures and
absent accounts are skipped. -/
def buildProfileMap (accountData : Addr → Option (List Nat))
    (decodeHandle : List Nat → Option String) (creators : List PubKey) :
    List (PubKey × String) :=
  let creatorToPda := creators.foldl (fun m c => mapSet m c (deriveProfilePda c)) []
  let profilePdas := creators.map deriveProfilePda
  let profileAccounts := profilePdas.map accountData
  (profileAccounts.zip profilePdas).foldl (fun m e =>
    match e.1 with
    | none => m
    | some bytes =>
      match decodeHandle bytes with
      | none => m
      | some handle =>
        match creatorToPda.find? (fun cp => cp.2 = e.2) with
        | none => m
        | some cp => mapSet m cp.1 handle) []

/-- Line 222 fallback label: `` `User ${creatorKey.slice(0, 8)}...` ``. -/
def fallbackHandle (creator : PubKey) : String :=
  "User " ++ (keyString creator).take 8 ++ "..."

/-- Lines 220-228: attach a handle to each post; `profileMap.get(key) || fallback`
falls back both when the key is absent and when the stored handle is the
empty string (JavaScript `||` on a falsy string). -/
def decorateWithHandles (posts : List RawPost) (profileMap : List (PubKey × String)) :
    List DecoratedPost :=
  posts.map (fun p =>
    let handle :=
      match mapGet profileMap p.creator with
      | some h => if h = "" then fallbackHandle p.creator else h
      | none => fallbackHandle p.creator
    ⟨p, handle⟩)

/-- Comparator of lines 230-234, `(a, b) => Number(b.createdAt) - Number(a.createdAt)`:
`a` may precede `b` iff the comparator is non-positive, i.e. descending by `createdAt`.
`Array.prototype.sort` is stable, which `List.insertionSort` models exactly. -/
def postDescOrder (a b : DecoratedPost) : Prop :=
  b.post.createdAt ≤ a.post.createdAt

instance : DecidableRel postDescOrder :=
  fun a b => Int.decLe b.post.createdAt a.post.createdAt

instance : IsTotal DecoratedPost postDescOrder :=
  ⟨fun a b => Int.le_total b.post.createdAt a.post.createdAt⟩

instance : IsTrans DecoratedPost postDescOrder :=
  ⟨fun _ _ _ hab hbc => le_trans hbc hab⟩

/-- usePost.ts:154-244, the body between the guard and the `finally`: scan all posts,
deduplicate creators, derive one profile PDA per unique creator, issue one
`getMultipleAccountsInfo` batch read, decode handles, decorate, sort descending. -/
def fetchAllPosts (env : RemoteEnv) : List DecoratedPost × List BatchRead :=
  let allPostsResponse := env.scanPosts
  let uniq := uniqueCreators allPostsResponse
  let profilePdas := uniq.map deriveProfilePda
  let reads := [BatchRead.mk profilePdas]
  let profileMap := buildProfileMap env.accountData env.decodeProfileHandle uniq
  let postsWithHandles := decorateWithHandles allPostsResponse profileMap
  let sortedPosts := postsWithHandles.insertionSort postDescOrder
  (sortedPosts, reads)

/-! ### Comments (useComments.ts). -/

structure Comment where
  post : Addr
  commentBy : PubKey
  content : String
  createdAt : Int
  updatedAt : Int
deriving DecidableEq, Repr

/-- Comparator of line 267, `(a, b) => a.createdAt - b.createdAt`: ascending, stable. -/
def commentAscOrder (a b : Comment) : Prop :=
  a.createdAt ≤ b.createdAt

instance : DecidableRel commentAscOrder :=
  fun a b => Int.decLe a.createdAt b.createdAt

instance : IsTotal Comment commentAscOrder :=
  ⟨fun a b => Int.le_total a.createdAt b.createdAt⟩

instance : IsTrans Comment commentAscOrder :=
  ⟨fun _ _ _ hab hbc => le_trans hab hbc⟩

def sortCommentsAsc (l : List Comment) : List Comment :=
  l.insertionSort commentAscOrder

/-- State local to the `useComments` hook: the keyed in-flight guard
`fetchingRef : useRef<string | null>` (holding the `toString` of the post PDA
being fetched, modelled by the PDA itself since `toString` is injective) and
the shared result state. -/
structure CommentsHookState where
  fetchingRef : Option Addr
  comments : List Comment
  isLoading : Bool
  error : Option String
deriving DecidableEq, Repr

/-- useComments.ts:229-241, `fetchCommentsForPost` up to the first `await`:
bail out without a program (no wallet), bail out if the same post key is
already in flight, otherwise set the guard and loading flags.  The returned
`Bool` is true iff the remote scan was issued. -/
def beginFetchCommentsForPost (wallet : Option PubKey) (st : CommentsHookState)
    (postPda : Addr) : CommentsHookState × Bool :=
  match wallet with
  | none => (st, false)
  | some _ =>
    if st.fetchingRef = some postPda then (st, false)
    else ({ st with fetchingRef := some postPda, isLoading := true, error := none }, true)

/-- useComments.ts:243-275, the continuation after the awaited scan: on success
convert and sort ascending, on error record the message; the `finally` block
clears `isLoading` and the guard on both paths. -/
def completeFetchCommentsForPost (st : CommentsHookState)
    (outcome : Except String (List Comment)) : CommentsHookState :=
  match outcome with
  | .ok raw =>
    { st with comments := sortCommentsAsc raw, isLoading := false, fetchingRef := none }
  | .error msg =>
    { st with error := some msg, isLoading := false, fetchingRef := none }

/-- State local to the `usePost` hook for `fetchAllPosts`: a boolean in-flight
guard (`fetchingRef : useRef(false)`) and the shared result state. -/
structure PostsHookState where
  fetchingRef : Bool
  allPosts : List DecoratedPost
  isLoading : Bool
  error : Option String
deriving DecidableEq, Repr

/-- usePost.ts:154-165, `fetchAllPosts` up to the first `await`: bail out
without program or wallet, bail out if already fetching, otherwise set the
guard and the loading flag.  The returned `Bool` is true iff the remote
reads were issued. -/
def beginFetchAllPosts (wallet : Option PubKey) (st : PostsHookState) :
    PostsHookState × Bool :=
  match wallet with
  | none => (st, false)
  | some _ =>
    if st.fetchingRef then (st, false)
    else ({ st with fetchingRef := true, isLoading := true }, true)

/-- usePost.ts:167-243, the continuation: on success store the decorated sorted
posts, on error record the message; the `finally` block clears `isLoading`
and the guard on both paths. -/
def completeFetchAllPosts (st : PostsHookState) (outcome : Except String RemoteEnv) :
    PostsHookState :=
  match outcome with
  | .ok env =>
    { st with allPosts := (fetchAllPosts env).1, isLoading := false, fetchingRef := false }
  | .error msg =>
    { st with error := some msg, isLoading := false, fetchingRef := false }

/-! ### The profile hook (useUserProfile.ts). -/

structure UserProfile where
  authority : PubKey
  handle : String
  bio : String
  avatarUri : String
  createdAt : Int
  updatedAt : Int
  followerCount : Int
  followingCount : Int
deriving DecidableEq, Repr

structure ProfileHookState where
  profile : Option UserProfile
  isLoading : Bool
  error : Option String
  fetchingRef : Bool
  lastWalletRef : Option String
deriving DecidableEq, Repr

/-- Possible outcomes of `program.account.userProfile.fetch(profilePda)`:
success, a thrown error whose message contains "Account does not exist"
(the not-found case the catch block tests for), or any other thrown error. -/
inductive ProfileFetchOutcome where
  | ok : UserProfile → ProfileFetchOutcome
  | notFound : ProfileFetchOutcome
  | remoteError : String → ProfileFetchOutcome
deriving DecidableEq, Repr

/-- useUserProfile.ts:74-94, `fetchProfile` up to the first `await`.  `program`
and `profilePda` are both null exactly when the wallet is null, so the first
guard collapses to the wallet check; it clears the profile and bails out.
Then: bail out if a fetch is in flight; bail out if the wallet key matches
`lastWalletRef` and a profile is already populated; otherwise set the guard,
the loading flag and clear the error.  The `Bool` is true iff the remote
fetch was issued. -/
def beginFetchProfile (wallet : Option PubKey) (st : ProfileHookState) :
    ProfileHookState × Bool :=
  match wallet with
  | none => ({ st with profile := none }, false)
  | some w =>
    if st.fetchingRef then (st, false)
    else if some (keyString w) = st.lastWalletRef ∧ st.profile ≠ none then (st, false)
    else ({ st with fetchingRef := true, isLoading := true, error := none }, true)

/-- useUserProfile.ts:95-122, the continuation: success stores the profile; a
"does not exist" error sets the profile to null without recording an error;
any other error records the message and keeps the profile.  All three paths
record `lastWalletRef := currentWalletKey`, and the `finally` block clears
`isLoading` and the guard. -/
def completeFetchProfile (st : ProfileHookState) (currentWalletKey : Option String)
    (outcome : ProfileFetchOutcome) : ProfileHookState :=
  match outcome with
  | .ok p =>
    { st with profile := some p, lastWalletRef := currentWalletKey,
              isLoading := false, fetchingRef := false }
  | .notFound =>
    { st with profile := none, lastWalletRef := currentWalletKey,
              isLoading := false, fetchingRef := false }
  | .remoteError msg =>
    { st with error := some msg, lastWalletRef := currentWalletKey,
              isLoading := false, fetchingRef := false }

/-- useUserProfile.ts:125-132, the effect that reacts to wallet changes: with a
connected wallet it starts a fetch, otherwise it clears the profile and the
last-wallet marker. -/
def walletEffect (st : ProfileHookState) (wallet : Option PubKey) :
    ProfileHookState × Bool :=
  match wallet with
  | some w => beginFetchProfile (some w) st
  | none => ({ st with profile := none, lastWalletRef := none }, false)

/-! ### `fetchPost` (usePost.ts:98-133). -/

/-- The decoded post account returned by `program.account.post.fetch`. -/
structure PostAccount where
  profile : Addr
  creator : PubKey
  content : String
  mediaUri : String
  createdAt : Int
  updatedAt : Int
deriving DecidableEq, Repr

/-- Outcomes of `program.account.post.fetch(postPda)`: success, a thrown
account-does-not-exist error (which carries no Anchor error code), or a
remote error with an optional Anchor error code. -/
inductive PostReadOutcome where
  | ok : PostAccount → PostReadOutcome
  | notFound : PostReadOutcome
  | remoteError : Option String → PostReadOutcome
deriving DecidableEq, Repr

inductive FetchPostResult where
  | fetched : PostAccount → FetchPostResult
  | failure : String → FetchPostResult
deriving DecidableEq, Repr

/-- Modelled from the spec: `getErrorMessage` lives in `src/lib/errors`, which is
not part of the sources; per the spec it maps remote error codes "through a
fixed lookup table to user-facing messages; unmapped codes fall back to a
generic 'operation failed' message".  The lookup table's entries are unknown,
so every code is rendered through the documented generic fallback; the claims
settled against it depend only on the absent-code path. -/
def getErrorMessage (code : Option String) : String :=
  match code with
  | none => "operation failed"
  | some _ => "operation failed"

/-- usePost.ts:98-133: guard on program and profile PDA, derive the post PDA,
fetch the account, store and return it; any thrown error (including the
account-does-not-exist throw, whose error shape carries no Anchor error
code) is mapped through `getErrorMessage` and returned as a failure result.
`none` models the guard's bare `return` (undefined). -/
def fetchPost (wallet : Option PubKey) (profilePda : Option Addr) (mediaUri : String)
    (readPost : Addr → PostReadOutcome) : Option FetchPostResult :=
  match profilePda, wallet with
  | none, _ => none
  | _, none => none
  | some pda, some w =>
    match derivePostPda (some w) mediaUri pda with
    | none => some (.failure (getErrorMessage none))
    | some postPda =>
      match readPost postPda with
      | .ok acct => some (.fetched acct)
      | .notFound => some (.failure (getErrorMessage none))
      | .remoteError code => some (.failure (getErrorMessage code))

/-! ### The profiles hook (useProfiles.ts): follow status and `fetchAllProfiles`. -/

structure FollowStatus where
  isFollowing : Bool
  followPda : Option Addr
deriving DecidableEq, Repr

/-- useProfiles.ts:334-372: derive a follow PDA per authority from the ordered
pair (connected wallet, authority), batch-read all of them with one
`getMultipleAccountsInfo` call, and record for each authority (recovered by
reverse lookup of the PDA) whether the account exists; the account payload is
only compared against null, never decoded.  `accountData` answers the batch
read per address. -/
def batchCheckFollowStatus (wallet : PubKey) (profileAuthorities : List PubKey)
    (accountData : Addr → Option (List Nat)) : List (PubKey × FollowStatus) :=
  let followPdas := profileAuthorities.map (fun a => deriveFollowPda wallet a)
  let authorityToFollowPda :=
    profileAuthorities.foldl (fun m a => mapSet m a (deriveFollowPda wallet a)) []
  let followAccounts := followPdas.map accountData
  (followAccounts.zip followPdas).foldl (fun res e =>
    match authorityToFollowPda.find? (fun cp => cp.2 = e.2) with
    | none => res
    | some cp =>
      mapSet res cp.1
        ⟨e.1.isSome, if e.1.isSome then some e.2 else none⟩) []

structure RawProfile where
  authority : PubKey
  handle : String
  bio : String
  avatarUri : String
  createdAt : Int
  updatedAt : Int
  followerCount : Int
  followingCount : Int
deriving DecidableEq, Repr

structure ProfileWithFollowStatus where
  profile : RawProfile
  isFollowing : Bool
  followPda : Option Addr
deriving DecidableEq, Repr

/-- useProfiles.ts:387-431, the body of `fetchAllProfiles` between the guard and
the `finally`: scan all profiles, filter out the connected wallet's own
profile, batch-check follow status for the remaining authorities, and
decorate each profile with its follow status (defaulting to not-following
when the authority is missing from the map). -/
def fetchAllProfiles (wallet : PubKey) (allProfiles : List RawProfile)
    (accountData : Addr → Option (List Nat)) : List ProfileWithFollowStatus :=
  let otherProfiles := allProfiles.filter (fun p => ¬(p.authority = wallet))
  let profileAuthorities := otherProfiles.map (fun p => p.authority)
  let followStatusMap := batchCheckFollowStatus wallet profileAuthorities accountData
  otherProfiles.map (fun p =>
    let followStatus := (mapGet followStatusMap p.authority).getD ⟨false, none⟩
    ⟨p, followStatus.isFollowing, followStatus.followPda⟩)

/-! ### Helper lemmas about the `Map` model. -/

theorem find?_congrF {α : Type} (p q : α → Bool) (hpq : ∀ x, p x = q x) (l : List α) :
    l.find? p = l.find? q := by
  have h : p = q := funext hpq
  rw [h]

theorem mapGet_mapSet_self {β : Type} (m : List (PubKey × β)) (k : PubKey) (v : β) :
    mapGet (mapSet m k v) k = some v := by
  unfold mapSet mapGet
  by_cases h : (m.find? (fun e => e.1 = k)).isSome
  · rw [if_pos h, List.find?_map]
    rw [find?_congrF _ (fun e : PubKey × β => decide (e.1 = k))
        (fun e => by by_cases he : e.1 = k <;> simp [he]) m]
    rcases Option.isSome_iff_exists.mp h with ⟨e0, he0⟩
    rw [he0]
    have hk : e0.1 = k :=
      of_decide_eq_true (List.find?_some (p := fun e : PubKey × β => decide (e.1 = k)) he0)
    simp [hk]
  · rw [if_neg h, List.find?_append]
    rw [Option.not_isSome_iff_eq_none] at h
    simp [h]

theorem mapGet_mapSet_other {β : Type} (m : List (PubKey × β)) (k k2 : PubKey) (v : β)
    (hne : k2 ≠ k) : mapGet (mapSet m k v) k2 = mapGet m k2 := by
  unfold mapSet mapGet
  by_cases h : (m.find? (fun e => e.1 = k)).isSome
  · rw [if_pos h, List.find?_map]
    rw [find?_congrF _ (fun e : PubKey × β => decide (e.1 = k2))
        (fun e => by
          by_cases he : e.1 = k
          · simp [he, Ne.symm hne]
          · simp [he]) m]
    cases hf : m.find? (fun e : PubKey × β => decide (e.1 = k2)) with
    | none => simp
    | some e =>
      have he2 : e.1 = k2 :=
        of_decide_eq_true (List.find?_some (p := fun e : PubKey × β => decide (e.1 = k2)) hf)
      have hek : ¬ e.1 = k := by rw [he2]; exact hne
      simp [hek]
  · rw [if_neg h, List.find?_append]
    have h1 : List.find? (fun e : PubKey × β => decide (e.1 = k2)) [(k, v)] = none := by
      simp [List.find?, Ne.symm hne]
    rw [h1]
    cases m.find? (fun e : PubKey × β => decide (e.1 = k2)) <;> simp

theorem mem_mapSet {β : Type} (m : List (PubKey × β)) (k : PubKey) (v : β) (e : PubKey × β)
    (he : e ∈ mapSet m k v) : e ∈ m ∨ e = (k, v) := by
  unfold mapSet at he
  split at he
  · rcases List.mem_map.mp he with ⟨e0, he0, heq⟩
    by_cases h : e0.1 = k
    · right; rw [← heq]; simp [h]
    · left; rw [← heq]; simp only [if_neg h]; exact he0
  · rcases List.mem_append.mp he with h | h
    · left; exact h
    · right; simpa using h

theorem exists_key_mapSet_self {β : Type} (m : List (PubKey × β)) (k : PubKey) (v : β) :
    ∃ e ∈ mapSet m k v, e.1 = k := by
  unfold mapSet
  by_cases h : (m.find? (fun e => e.1 = k)).isSome
  · rw [if_pos h]
    rcases Option.isSome_iff_exists.mp h with ⟨e0, he0⟩
    have he0m : e0 ∈ m := List.mem_of_find?_eq_some he0
    have he0k : e0.1 = k :=
      of_decide_eq_true (List.find?_some (p := fun e : PubKey × β => decide (e.1 = k)) he0)
    exact ⟨(k, v), List.mem_map.mpr ⟨e0, he0m, by simp [he0k]⟩, rfl⟩
  · exact ⟨(k, v), by simp [if_neg h], rfl⟩

theorem exists_key_mapSet_of_exists {β : Type} (m : List (PubKey × β)) (k a : PubKey) (v : β)
    (ha : ∃ e ∈ m, e.1 = a) : ∃ e ∈ mapSet m k v, e.1 = a := by
  by_cases hak : a = k
  · subst hak; exact exists_key_mapSet_self m a v
  · rcases ha with ⟨e, hem, hea⟩
    unfold mapSet
    by_cases h : (m.find? (fun e => e.1 = k)).isSome
    · rw [if_pos h]
      refine ⟨e, List.mem_map.mpr ⟨e, hem, ?_⟩, hea⟩
      rw [if_neg (by rw [hea]; exact hak)]
    · rw [if_neg h]
      exact ⟨e, List.mem_append_left _ hem, hea⟩

/-! ### Concrete content digests used by the scenario claims. -/

set_option maxRecDepth 400000 in
theorem shaPrefix4_hello : shaPrefix4 "hello" = [44, 242, 77, 186] := by decide

set_option maxRecDepth 400000 in
theorem shaPrefix4_world : shaPrefix4 "world" = [72, 110, 164, 98] := by decide

/-! ### Claim theorems. -/

/-- C1: the address derivation for content-keyed records (post, comment) includes
the first 4 bytes of the SHA-256 digest of the record's primary content field
in its seed set (for a post the hashed field is its media URI, for a comment
its text content); derivation is a pure function, so deriving twice for the
same (owner, content) yields the same address, and distinct digest prefixes
yield distinct addresses for the same owner; in particular the digest of
"hello" is the concrete 4-byte prefix and deriving for it twice (before and
after submission — derivation is independent of ledger state) gives the same
address both times. -/
theorem C1_content_keyed_derivation :
    (∀ (w : PubKey) (uri : String) (p : Addr),
      derivePostPda (some w) uri p = some (Addr.postPda w (shaPrefix4 uri) p)) ∧
    (∀ (w : PubKey) (postPda : Addr) (c : String),
      deriveCommentPda (some w) postPda c = some (Addr.commentPda postPda w (shaPrefix4 c))) ∧
    (∀ (w : PubKey) (uri1 uri2 : String) (p1 p2 : Addr),
      shaPrefix4 uri1 ≠ shaPrefix4 uri2 →
      derivePostPda (some w) uri1 p1 ≠ derivePostPda (some w) uri2 p2) ∧
    (∀ (w : PubKey) (pd : Addr) (c1 c2 : String),
      shaPrefix4 c1 ≠ shaPrefix4 c2 →
      deriveCommentPda (some w) pd c1 ≠ deriveCommentPda (some w) pd c2) ∧
    shaPrefix4 "hello" = [44, 242, 77, 186] ∧
    (∀ u : PubKey,
      derivePostPda (some u) "hello" (deriveProfilePda u) =
      derivePostPda (some u) "hello" (deriveProfilePda u)) := by
  refine ⟨fun w uri p => rfl, fun w pd c => rfl, ?_, ?_, shaPrefix4_hello, fun u => rfl⟩
  · intro w uri1 uri2 p1 p2 hd heq
    simp only [derivePostPda, Option.some.injEq, Addr.postPda.injEq] at heq
    exact hd heq.2.1
  · intro w pd c1 c2 hd heq
    simp only [deriveCommentPda, Option.some.injEq, Addr.commentPda.injEq] at heq
    exact hd heq.2.2

/-- Witness for C1: owner `1` deriving for media URI content "hello" versus
"world" (distinct digest prefixes) gets distinct post addresses, and likewise
distinct comment addresses for comment contents "hello" versus "world". -/
theorem C1_witness :
    derivePostPda (some 1) "hello" (deriveProfilePda 1) ≠
      derivePostPda (some 1) "world" (deriveProfilePda 1) ∧
    deriveCommentPda (some 1) (deriveProfilePda 1) "hello" ≠
      deriveCommentPda (some 1) (deriveProfilePda 1) "world" :=
  ⟨C1_content_keyed_derivation.2.2.1 1 "hello" "world" (deriveProfilePda 1) (deriveProfilePda 1)
      (by rw [shaPrefix4_hello, shaPrefix4_world]; decide),
   C1_content_keyed_derivation.2.2.2.1 1 (deriveProfilePda 1) "hello" "world"
      (by rw [shaPrefix4_hello, shaPrefix4_world]; decide)⟩

/-- An idle comments-hook state: nothing in flight, nothing populated. -/
def stC0 : CommentsHookState := ⟨none, [], false, none⟩

/-- Counterexample to C3: the comments in-flight guard is a single slot, not a
per-key map.  From the idle state, a fetch for post key `10` is issued; a
fetch for post key `20` overwrites the slot and is issued; a repeated fetch
for key `10` then no longer matches the slot and is issued as well — a second
remote read for key `10` while the first one has not completed, so two remote
reads for the same key are outstanding at once. -/
theorem C3_counterexample :
    (beginFetchCommentsForPost (some 1) stC0 (Addr.profilePda 10)).2 = true ∧
    (beginFetchCommentsForPost (some 1)
      (beginFetchCommentsForPost (some 1) stC0 (Addr.profilePda 10)).1
      (Addr.profilePda 20)).2 = true ∧
    (beginFetchCommentsForPost (some 1)
      (beginFetchCommentsForPost (some 1)
        (beginFetchCommentsForPost (some 1) stC0 (Addr.profilePda 10)).1
        (Addr.profilePda 20)).1
      (Addr.profilePda 10)).2 = true := by
  refine ⟨by decide, by decide, by decide⟩

/-- C3 as amended: a second fetch call for a key that the in-flight guard still
records returns at once without touching state or issuing a remote call (for
both the boolean-guarded `fetchAllPosts` and the key-guarded
`fetchCommentsForPost`), and in the back-to-back duplicate scenario the
single in-flight fetch's completion populates the shared comments state that
both callers observe; the guarantee is per guard slot, not per key across
interleaved fetches of different keys. -/
theorem C3_request_coalescing :
    (∀ (w : PubKey) (st : CommentsHookState) (k : Addr),
      st.fetchingRef = some k → beginFetchCommentsForPost (some w) st k = (st, false)) ∧
    (∀ (w : PubKey) (st : PostsHookState),
      st.fetchingRef = true → beginFetchAllPosts (some w) st = (st, false)) ∧
    (∀ (w : PubKey) (st : CommentsHookState) (k : Addr) (raw : List Comment),
      st.fetchingRef = none →
      (beginFetchCommentsForPost (some w) st k).2 = true ∧
      beginFetchCommentsForPost (some w) (beginFetchCommentsForPost (some w) st k).1 k =
        ((beginFetchCommentsForPost (some w) st k).1, false) ∧
      (completeFetchCommentsForPost (beginFetchCommentsForPost (some w) st k).1
        (.ok raw)).comments = sortCommentsAsc raw) := by
  refine ⟨?_, ?_, ?_⟩
  · intro w st k h
    simp [beginFetchCommentsForPost, h]
  · intro w st h
    simp [beginFetchAllPosts, h]
  · intro w st k raw h
    have h1 : ¬ st.fetchingRef = some k := by rw [h]; exact fun hc => Option.noConfusion hc
    refine ⟨by simp [beginFetchCommentsForPost, h1], ?_, by simp [beginFetchCommentsForPost,
      h1, completeFetchCommentsForPost]⟩
    simp [beginFetchCommentsForPost, h1]

/-- Witness for C3: a concrete second call for an in-flight key is dropped for
both hooks, and the concrete back-to-back comment-fetch trace issues one
remote call and ends with the resolved sorted comment list in shared state. -/
theorem C3_witness :
    beginFetchCommentsForPost (some 1) ⟨some (Addr.profilePda 5), [], true, none⟩
      (Addr.profilePda 5) = (⟨some (Addr.profilePda 5), [], true, none⟩, false) ∧
    beginFetchAllPosts (some 1) ⟨true, [], true, none⟩ = (⟨true, [], true, none⟩, false) ∧
    (beginFetchCommentsForPost (some 1) ⟨none, [], false, none⟩ (Addr.profilePda 5)).2 = true :=
  ⟨C3_request_coalescing.1 1 ⟨some (Addr.profilePda 5), [], true, none⟩ (Addr.profilePda 5) rfl,
   C3_request_coalescing.2.1 1 ⟨true, [], true, none⟩ rfl,
   (C3_request_coalescing.2.2 1 ⟨none, [], false, none⟩ (Addr.profilePda 5) [] rfl).1⟩

/-- C4: every fetch operation's continuation clears the in-flight guard on every
exit path (success and error alike, via the source's `finally` blocks), for
`fetchAllPosts`, `fetchCommentsForPost` and `fetchProfile`. -/
theorem C4_guard_released_on_every_path :
    (∀ (st : PostsHookState) (o : Except String RemoteEnv),
      (completeFetchAllPosts st o).fetchingRef = false) ∧
    (∀ (st : CommentsHookState) (o : Except String (List Comment)),
      (completeFetchCommentsForPost st o).fetchingRef = none) ∧
    (∀ (st : ProfileHookState) (key : Option String) (o : ProfileFetchOutcome),
      (completeFetchProfile st key o).fetchingRef = false) := by
  refine ⟨fun st o => ?_, fun st o => ?_, fun st key o => ?_⟩
  · cases o <;> rfl
  · cases o <;> rfl
  · cases o <;> rfl

/-- A concrete profile populated under wallet `1`. -/
def profileOfA : UserProfile := ⟨1, "alice", "bio", "ava", 10, 10, 0, 0⟩

/-- Hook state after a successful fetch under wallet `1`: profile populated,
no fetch in flight, last wallet recorded as `1`. -/
def stPopulatedA : ProfileHookState :=
  ⟨some profileOfA, false, none, false, some (keyString 1)⟩

/-- Counterexample to C5: with the profile snapshot populated under wallet `1`,
switching the connected wallet to `2` runs the effect, which starts a new
fetch (the remote read is issued) while the snapshot populated under wallet
`1` is still visible — nothing clears it before the new fetch is attempted. -/
theorem C5_counterexample :
    (walletEffect stPopulatedA (some 2)).2 = true ∧
    (walletEffect stPopulatedA (some 2)).1.profile = some profileOfA := by
  constructor <;> rfl

/-- C5 as amended: on disconnect (actor changes to none) the profile snapshot
and the last-actor marker are cleared immediately; a change to a different
connected actor always starts a refetch (the stale snapshot is never treated
as fresh), but the old snapshot stays visible until the new fetch completes,
whose outcome then overwrites the snapshot and records the new actor
identity. -/
theorem C5_invalidation_amended :
    (∀ st : ProfileHookState,
      (walletEffect st none).1.profile = none ∧
      (walletEffect st none).1.lastWalletRef = none) ∧
    (∀ (st : ProfileHookState) (w : PubKey),
      st.fetchingRef = false → some (keyString w) ≠ st.lastWalletRef →
      (beginFetchProfile (some w) st).2 = true ∧
      (beginFetchProfile (some w) st).1.profile = st.profile) ∧
    (∀ (st : ProfileHookState) (key : Option String) (o : ProfileFetchOutcome),
      (completeFetchProfile st key o).lastWalletRef = key) ∧
    (∀ (st : ProfileHookState) (key : Option String) (p : UserProfile),
      (completeFetchProfile st key (.ok p)).profile = some p) ∧
    (∀ (st : ProfileHookState) (key : Option String),
      (completeFetchProfile st key .notFound).profile = none) := by
  refine ⟨fun st => ⟨rfl, rfl⟩, ?_, fun st key o => ?_, fun st key p => rfl,
    fun st key => rfl⟩
  · intro st w h1 h2
    have hcond : ¬ (some (keyString w) = st.lastWalletRef ∧ st.profile ≠ none) :=
      fun hc => h2 hc.1
    constructor <;> simp [beginFetchProfile, h1, hcond]
  · cases o <;> rfl

/-- Witness for C5 (amended): from the concrete populated-under-wallet-1 state,
a change to wallet `2` starts a refetch while keeping the old snapshot, and
each completion outcome overwrites the snapshot and records wallet `2`. -/
theorem C5_witness :
    (beginFetchProfile (some 2) stPopulatedA).2 = true ∧
    (beginFetchProfile (some 2) stPopulatedA).1.profile = stPopulatedA.profile :=
  C5_invalidation_amended.2.1 stPopulatedA 2 rfl (by decide)

set_option maxRecDepth 400000 in
/-- Counterexample to C8: fetching a post whose derived address has no record
(the remote read reports not-found) returns a failure result carrying a
user-facing error message, rather than an empty/absent state. -/
theorem C8_counterexample :
    fetchPost (some 1) (some (deriveProfilePda 1)) "pic.png"
      (fun _ => PostReadOutcome.notFound) =
    some (FetchPostResult.failure "operation failed") := by
  rfl

/-- C8 as amended: the profile fetch treats NotFound as a valid empty state —
the profile state is set to null and no error is surfaced (over a full
begin/complete cycle the error state ends up clear) — whereas the post fetch
`fetchPost` surfaces NotFound to its caller as a failure result carrying the
generic mapped message. -/
theorem C8_notfound_amended :
    (∀ (st : ProfileHookState) (key : Option String),
      (completeFetchProfile st key .notFound).profile = none ∧
      (completeFetchProfile st key .notFound).error = st.error) ∧
    (∀ (st : ProfileHookState) (w : PubKey),
      st.fetchingRef = false → st.profile = none →
      (completeFetchProfile (beginFetchProfile (some w) st).1 (some (keyString w))
        .notFound).profile = none ∧
      (completeFetchProfile (beginFetchProfile (some w) st).1 (some (keyString w))
        .notFound).error = none) ∧
    (∀ (w : PubKey) (pda : Addr) (uri : String),
      fetchPost (some w) (some pda) uri (fun _ => PostReadOutcome.notFound) =
      some (FetchPostResult.failure (getErrorMessage none))) := by
  refine ⟨fun st key => ⟨rfl, rfl⟩, ?_, fun w pda uri => rfl⟩
  intro st w h1 h2
  have hcond : ¬ (some (keyString w) = st.lastWalletRef ∧ st.profile ≠ none) :=
    fun hc => hc.2 h2
  constructor <;> simp [beginFetchProfile, h1, hcond, completeFetchProfile]

/-- Witness for C8 (amended): a concrete full profile-fetch cycle under wallet
`1` from the empty state, where the remote store has no record: the profile
state is null and no error is recorded. -/
theorem C8_witness :
    (completeFetchProfile (beginFetchProfile (some 1) ⟨none, false, none, false, none⟩).1
      (some (keyString 1)) .notFound).profile = none ∧
    (completeFetchProfile (beginFetchProfile (some 1) ⟨none, false, none, false, none⟩).1
      (some (keyString 1)) .notFound).error = none :=
  C8_notfound_amended.2.1 ⟨none, false, none, false, none⟩ 1 rfl rfl

/-- Two posts with the same creation timestamp but different account addresses. -/
def rpostX : RawPost := ⟨Addr.profilePda 9, 1, "cx", "ux", 5⟩

def rpostY : RawPost := ⟨Addr.profilePda 3, 2, "cy", "uy", 5⟩

def envXY : RemoteEnv := ⟨[rpostX, rpostY], fun _ => none, fun _ => none⟩

def envYX : RemoteEnv := ⟨[rpostY, rpostX], fun _ => none, fun _ => none⟩

/-- Counterexample to C6: the post sort breaks creation-timestamp ties by the
stable pre-sort (fetch) order, not by address bytes ascending — two posts with
equal timestamps and distinct addresses come out in whichever order the scan
returned them, so no address-based tie-break (which would fix one single
order) is applied, and the ordering is not strict. -/
theorem C6_counterexample :
    rpostX.createdAt = rpostY.createdAt ∧
    rpostX.addr ≠ rpostY.addr ∧
    (fetchAllPosts envXY).1.map DecoratedPost.post = [rpostX, rpostY] ∧
    (fetchAllPosts envYX).1.map DecoratedPost.post = [rpostY, rpostX] := by
  refine ⟨rfl, by decide, ?_, ?_⟩ <;> rfl

theorem decorate_map_post (posts : List RawPost) (m : List (PubKey × String)) :
    (decorateWithHandles posts m).map DecoratedPost.post = posts := by
  unfold decorateWithHandles
  rw [List.map_map]
  exact List.map_id' posts

/-- C6 as amended: a fetched post list is sorted descending (non-strictly) by
creation timestamp and is a permutation of the fetched posts; ties keep the
pre-sort order (stable sort, no address tie-break).  A fetched comment list is
sorted ascending (non-strictly) by creation timestamp and is a permutation of
the fetched comments. -/
theorem C6_ordering_amended :
    (∀ env : RemoteEnv,
      (fetchAllPosts env).1.Sorted postDescOrder ∧
      List.Perm ((fetchAllPosts env).1.map DecoratedPost.post) env.scanPosts) ∧
    (∀ raw : List Comment,
      (sortCommentsAsc raw).Sorted commentAscOrder ∧
      List.Perm (sortCommentsAsc raw) raw) := by
  constructor
  · intro env
    refine ⟨List.sorted_insertionSort postDescOrder _, ?_⟩
    have hp := (List.perm_insertionSort postDescOrder
      (decorateWithHandles env.scanPosts
        (buildProfileMap env.accountData env.decodeProfileHandle
          (uniqueCreators env.scanPosts)))).map DecoratedPost.post
    rw [decorate_map_post] at hp
    exact hp
  · intro raw
    exact ⟨List.sorted_insertionSort commentAscOrder raw, List.perm_insertionSort _ raw⟩

/-! ### Deduplication lemmas for C2. -/

theorem uniqueCreators_mono (l : List RawPost) :
    ∀ (acc : List PubKey) (x : PubKey), x ∈ acc →
      x ∈ l.foldl (fun acc p => if p.creator ∈ acc then acc else acc ++ [p.creator]) acc := by
  induction l with
  | nil => intro acc x hx; simpa using hx
  | cons p t ih =>
    intro acc x hx
    simp only [List.foldl_cons]
    by_cases h : p.creator ∈ acc
    · simp only [if_pos h]; exact ih acc x hx
    · simp only [if_neg h]; exact ih _ x (List.mem_append_left _ hx)

theorem creator_mem_uniqueCreators_aux (l : List RawPost) :
    ∀ (acc : List PubKey) (p : RawPost), p ∈ l →
      p.creator ∈ l.foldl (fun acc p => if p.creator ∈ acc then acc else acc ++ [p.creator]) acc := by
  induction l with
  | nil => intro acc p hp; simp at hp
  | cons q t ih =>
    intro acc p hp
    simp only [List.foldl_cons]
    rcases List.mem_cons.mp hp with rfl | hp2
    · by_cases h : p.creator ∈ acc
      · simp only [if_pos h]; exact uniqueCreators_mono t acc _ h
      · simp only [if_neg h]
        exact uniqueCreators_mono t _ _ (List.mem_append_right _ (List.mem_singleton_self _))
    · exact ih _ p hp2

theorem uniqueCreators_nodup_aux (l : List RawPost) :
    ∀ acc : List PubKey, acc.Nodup →
      (l.foldl (fun acc p => if p.creator ∈ acc then acc else acc ++ [p.creator]) acc).Nodup := by
  induction l with
  | nil => intro acc h; simpa using h
  | cons q t ih =>
    intro acc h
    simp only [List.foldl_cons]
    by_cases hq : q.creator ∈ acc
    · simp only [if_pos hq]; exact ih acc h
    · simp only [if_neg hq]
      refine ih _ ?_
      simp [List.nodup_append, h, hq]

theorem uniqueCreators_nodup (posts : List RawPost) : (uniqueCreators posts).Nodup :=
  uniqueCreators_nodup_aux posts [] List.nodup_nil

theorem creator_mem_uniqueCreators (posts : List RawPost) (p : RawPost) (hp : p ∈ posts) :
    p.creator ∈ uniqueCreators posts :=
  creator_mem_uniqueCreators_aux posts [] p hp

/-- Scenario B input: 50 posts referencing 5 distinct creators. -/
def scanPosts50 : List RawPost :=
  (List.range 50).map (fun i => ⟨Addr.profilePda i, i % 5, "c", "u", Int.ofNat i⟩)

def env50 : RemoteEnv := ⟨scanPosts50, fun _ => none, fun _ => none⟩

set_option maxRecDepth 400000 in
/-- C2: decorating fetched posts with creator handles deduplicates the creators
(the dedup list has no duplicate keys and covers every post's creator),
derives one profile address per unique creator, and issues exactly one
multi-address read whose address list is exactly the per-unique-creator
profile PDAs, regardless of the number of posts; concretely, 50 posts by 5
creators cause one batch read of 5 addresses. -/
theorem C2_single_batch_read :
    (∀ env : RemoteEnv,
      (fetchAllPosts env).2 =
        [BatchRead.mk ((uniqueCreators env.scanPosts).map deriveProfilePda)] ∧
      (fetchAllPosts env).2.length = 1 ∧
      (uniqueCreators env.scanPosts).Nodup ∧
      (∀ p ∈ env.scanPosts, p.creator ∈ uniqueCreators env.scanPosts)) ∧
    uniqueCreators scanPosts50 = [0, 1, 2, 3, 4] ∧
    (fetchAllPosts env50).2.map (fun r => r.addresses.length) = [5] := by
  refine ⟨fun env => ⟨rfl, rfl, uniqueCreators_nodup _,
    fun p hp => creator_mem_uniqueCreators _ p hp⟩, by decide, by decide⟩

set_option maxRecDepth 400000 in
/-- Witness for C2: the first of the 50 posts has its creator in the
deduplicated creator list. -/
theorem C2_witness :
    (⟨Addr.profilePda 0, 0, "c", "u", Int.ofNat 0⟩ : RawPost).creator ∈
      uniqueCreators scanPosts50 :=
  (C2_single_batch_read.1 env50).2.2.2 ⟨Addr.profilePda 0, 0, "c", "u", Int.ofNat 0⟩
    (by decide)

/-! ### Lemmas about `buildProfileMap` for C7. -/

theorem deriveProfilePda_injective (a b : PubKey) (h : deriveProfilePda a = deriveProfilePda b) :
    a = b := by
  simpa [deriveProfilePda, Addr.profilePda.injEq] using h

theorem deriveFollowPda_injective (w a b : PubKey)
    (h : deriveFollowPda w a = deriveFollowPda w b) : a = b := by
  simpa [deriveFollowPda, Addr.followPda.injEq] using h

theorem foldl_mapSet_entries {β : Type} (f : PubKey → β) (cs : List PubKey) :
    ∀ m0 : List (PubKey × β), (∀ e ∈ m0, e.2 = f e.1) →
      ∀ e ∈ cs.foldl (fun m c => mapSet m c (f c)) m0, e.2 = f e.1 := by
  induction cs with
  | nil => intro m0 h e he; exact h e (by simpa using he)
  | cons c t ih =>
    intro m0 h e he
    simp only [List.foldl_cons] at he
    refine ih _ ?_ e he
    intro e2 he2
    rcases mem_mapSet _ _ _ _ he2 with h2 | h2
    · exact h e2 h2
    · rw [h2]

theorem good_fold_aux (ad : Addr → Option (List Nat)) (dec : List Nat → Option String)
    (ctp : List (PubKey × Addr)) (hctp : ∀ cp ∈ ctp, cp.2 = deriveProfilePda cp.1)
    (cs : List PubKey) :
    ∀ m0 : List (PubKey × String),
      (∀ e ∈ m0, ∃ bytes, ad (deriveProfilePda e.1) = some bytes ∧ dec bytes = some e.2) →
      ∀ e ∈ cs.foldl (fun m c =>
          match ad (deriveProfilePda c) with
          | none => m
          | some bytes =>
            match dec bytes with
            | none => m
            | some handle =>
              match ctp.find? (fun cp => cp.2 = deriveProfilePda c) with
              | none => m
              | some cp => mapSet m cp.1 handle) m0,
        ∃ bytes, ad (deriveProfilePda e.1) = some bytes ∧ dec bytes = some e.2 := by
  induction cs with
  | nil => intro m0 h e he; exact h e (by simpa using he)
  | cons c t ih =>
    intro m0 h e he
    simp only [List.foldl_cons] at he
    refine ih _ ?_ e he
    intro e2 he2
    cases had : ad (deriveProfilePda c) with
    | none => simp only [had] at he2; exact h e2 he2
    | some bytes =>
      cases hdec : dec bytes with
      | none => simp only [had, hdec] at he2; exact h e2 he2
      | some handle =>
        cases hfind : ctp.find? (fun cp => cp.2 = deriveProfilePda c) with
        | none => simp only [had, hdec, hfind] at he2; exact h e2 he2
        | some cp =>
          simp only [had, hdec, hfind] at he2
          rcases mem_mapSet _ _ _ _ he2 with h2 | h2
          · exact h e2 h2
          · subst h2
            have hcp : cp.2 = deriveProfilePda cp.1 :=
              hctp cp (List.mem_of_find?_eq_some hfind)
            have hcpc : cp.2 = deriveProfilePda c :=
              of_decide_eq_true (List.find?_some
                (p := fun cp : PubKey × Addr => decide (cp.2 = deriveProfilePda c)) hfind)
            have hc1 : cp.1 = c := deriveProfilePda_injective _ _ (by rw [← hcp, hcpc])
            exact ⟨bytes, by rw [hc1]; exact had, hdec⟩

theorem buildProfileMap_good (ad : Addr → Option (List Nat)) (dec : List Nat → Option String)
    (creators : List PubKey) :
    ∀ e ∈ buildProfileMap ad dec creators,
      ∃ bytes, ad (deriveProfilePda e.1) = some bytes ∧ dec bytes = some e.2 := by
  intro e he
  unfold buildProfileMap at he
  simp only [List.map_map, List.zip_map', List.foldl_map, Function.comp] at he
  exact good_fold_aux ad dec _
    (foldl_mapSet_entries deriveProfilePda creators [] (by intro e2 he2; simp at he2))
    creators [] (by intro e2 he2; simp at he2) e he

theorem mapGet_buildProfileMap_none (ad : Addr → Option (List Nat))
    (dec : List Nat → Option String) (creators : List PubKey) (c : PubKey)
    (hc : ad (deriveProfilePda c) = none ∨
      ∀ bytes, ad (deriveProfilePda c) = some bytes → dec bytes = none) :
    mapGet (buildProfileMap ad dec creators) c = none := by
  cases hm : mapGet (buildProfileMap ad dec creators) c with
  | none => rfl
  | some h =>
    exfalso
    unfold mapGet at hm
    rcases Option.map_eq_some'.mp hm with ⟨e, hfind, hev⟩
    have hem : e ∈ buildProfileMap ad dec creators := List.mem_of_find?_eq_some hfind
    have hek : e.1 = c :=
      of_decide_eq_true (List.find?_some (p := fun e : PubKey × String => decide (e.1 = c)) hfind)
    rcases buildProfileMap_good ad dec creators e hem with ⟨bytes, hb1, hb2⟩
    rw [hek] at hb1
    rcases hc with hc | hc
    · rw [hc] at hb1; exact Option.noConfusion hb1
    · have hd := hc bytes hb1
      rw [hd] at hb2
      exact Option.noConfusion hb2

/-- C7: a post whose creator profile account is absent, or whose profile
payload fails to decode, is decorated with the deterministic truncated-key
fallback handle and is retained in the output — the output has one decorated
post per fetched post, and the affected post appears with the fallback
label. -/
theorem C7_fallback_on_missing_profile :
    ∀ env : RemoteEnv, ∀ p ∈ env.scanPosts,
      (env.accountData (deriveProfilePda p.creator) = none ∨
        ∀ bytes, env.accountData (deriveProfilePda p.creator) = some bytes →
          env.decodeProfileHandle bytes = none) →
      (fetchAllPosts env).1.length = env.scanPosts.length ∧
      DecoratedPost.mk p (fallbackHandle p.creator) ∈ (fetchAllPosts env).1 := by
  intro env p hp hbad
  constructor
  · show (List.insertionSort postDescOrder
      (decorateWithHandles env.scanPosts
        (buildProfileMap env.accountData env.decodeProfileHandle
          (uniqueCreators env.scanPosts)))).length = env.scanPosts.length
    rw [List.length_insertionSort]
    unfold decorateWithHandles
    rw [List.length_map]
  · show DecoratedPost.mk p (fallbackHandle p.creator) ∈
      List.insertionSort postDescOrder
        (decorateWithHandles env.scanPosts
          (buildProfileMap env.accountData env.decodeProfileHandle
            (uniqueCreators env.scanPosts)))
    rw [List.mem_insertionSort]
    have hnone : mapGet (buildProfileMap env.accountData env.decodeProfileHandle
        (uniqueCreators env.scanPosts)) p.creator = none :=
      mapGet_buildProfileMap_none _ _ _ _ hbad
    unfold decorateWithHandles
    refine List.mem_map.mpr ⟨p, hp, ?_⟩
    rw [hnone]

/-- A post by creator `7`, whose profile account is absent on the remote store. -/
def rpostW : RawPost := ⟨Addr.profilePda 7, 7, "cw", "uw", 3⟩

def envW : RemoteEnv := ⟨[rpostW], fun _ => none, fun _ => none⟩

/-- Witness for C7: the concrete post whose creator profile is absent is kept
and carries the fallback handle. -/
theorem C7_witness :
    (fetchAllPosts envW).1.length = envW.scanPosts.length ∧
    DecoratedPost.mk rpostW (fallbackHandle rpostW.creator) ∈ (fetchAllPosts envW).1 :=
  C7_fallback_on_missing_profile envW rpostW (by decide) (Or.inl rfl)

/-- C9: every profile produced by `fetchAllProfiles` has an authority different
from the connected wallet's key — the connected actor's own profile is
filtered out before follow-status decoration. -/
theorem C9_own_profile_excluded :
    ∀ (wallet : PubKey) (allProfiles : List RawProfile) (ad : Addr → Option (List Nat)),
      ∀ q ∈ fetchAllProfiles wallet allProfiles ad, q.profile.authority ≠ wallet := by
  intro wallet aps ad q hq
  unfold fetchAllProfiles at hq
  rcases List.mem_map.mp hq with ⟨p, hp, hpq⟩
  have hfil : ¬ (p.authority = wallet) := by
    have h1 := List.of_mem_filter hp
    simpa using h1
  intro hauth
  rw [← hpq] at hauth
  exact hfil hauth

def rprofB : RawProfile := ⟨2, "bob", "b", "a", 0, 0, 0, 0⟩

/-- Witness for C9: with connected wallet `1` and one profile owned by `2`,
the produced decorated profile's authority is not `1`. -/
theorem C9_witness :
    (ProfileWithFollowStatus.mk rprofB false none).profile.authority ≠ 1 :=
  C9_own_profile_excluded 1 [rprofB] (fun _ => none)
    (ProfileWithFollowStatus.mk rprofB false none) (by decide)

/-! ### Lookup lemmas for C10. -/

theorem foldl_mapSet_exists_key {β : Type} (f : PubKey → β) (cs : List PubKey) :
    ∀ (m0 : List (PubKey × β)) (a : PubKey), a ∈ cs ∨ (∃ e ∈ m0, e.1 = a) →
      ∃ e ∈ cs.foldl (fun m c => mapSet m c (f c)) m0, e.1 = a := by
  induction cs with
  | nil =>
    intro m0 a h
    rcases h with h | h
    · simp at h
    · simpa using h
  | cons c t ih =>
    intro m0 a h
    simp only [List.foldl_cons]
    rcases h with h | h
    · rcases List.mem_cons.mp h with rfl | h2
      · exact ih _ a (Or.inr (exists_key_mapSet_self m0 a (f a)))
      · exact ih _ a (Or.inl h2)
    · exact ih _ a (Or.inr (exists_key_mapSet_of_exists m0 c a (f c) h))

theorem find?_value_foldl_mapSet (f : PubKey → Addr) (hf : ∀ a b, f a = f b → a = b)
    (cs : List PubKey) (b : PubKey) (hb : b ∈ cs) :
    (cs.foldl (fun m c => mapSet m c (f c)) []).find? (fun cp => cp.2 = f b) =
      some (b, f b) := by
  have hent := foldl_mapSet_entries f cs [] (by intro e2 he2; simp at he2)
  rcases foldl_mapSet_exists_key f cs [] b (Or.inl hb) with ⟨e0, he0m, he0k⟩
  have hpe0 : e0.2 = f b := by rw [hent e0 he0m, he0k]
  have hsome : ((cs.foldl (fun m c => mapSet m c (f c)) []).find?
      (fun cp => cp.2 = f b)).isSome := by
    rw [List.find?_isSome]
    exact ⟨e0, he0m, by simp [hpe0]⟩
  rcases Option.isSome_iff_exists.mp hsome with ⟨e, he⟩
  have hem := List.mem_of_find?_eq_some he
  have hep : e.2 = f b :=
    of_decide_eq_true (List.find?_some (p := fun cp : PubKey × Addr => decide (cp.2 = f b)) he)
  have hek : e.1 = b := hf _ _ (by rw [← hent e hem, hep])
  rw [he]
  have hebf : e = (b, f b) := by
    rcases e with ⟨x, y⟩
    simp only at hek hep
    rw [hek, hep]
  rw [hebf]

theorem foldl_mapSet_lookup {β : Type} (f : PubKey → β) (l : List PubKey) :
    ∀ (res0 : List (PubKey × β)) (a : PubKey),
      mapGet (l.foldl (fun res b => mapSet res b (f b)) res0) a =
        if a ∈ l then some (f a) else mapGet res0 a := by
  induction l with
  | nil => intro res0 a; simp
  | cons b t ih =>
    intro res0 a
    simp only [List.foldl_cons]
    rw [ih]
    by_cases hat : a ∈ t
    · rw [if_pos hat, if_pos (List.mem_cons.mpr (Or.inr hat))]
    · rw [if_neg hat]
      by_cases hab : a = b
      · subst hab
        rw [if_pos (List.mem_cons_self a t)]
        exact mapGet_mapSet_self res0 a (f a)
      · rw [if_neg (by simp [List.mem_cons, hab, hat])]
        exact mapGet_mapSet_other res0 b a (f b) hab

theorem foldl_congr_mem {α β : Type} (l : List α) (f g : β → α → β) :
    (∀ b : β, ∀ a ∈ l, f b a = g b a) →
    ∀ b0 : β, l.foldl f b0 = l.foldl g b0 := by
  induction l with
  | nil => intro h b0; rfl
  | cons a t ih =>
    intro h b0
    simp only [List.foldl_cons]
    rw [h b0 a (List.mem_cons_self a t)]
    exact ih (fun b a2 ha2 => h b a2 (List.mem_cons.mpr (Or.inr ha2))) _

/-- The status recorded for one authority by `batchCheckFollowStatus`. -/
def followStatusOf (wallet : PubKey) (ad : Addr → Option (List Nat)) (a : PubKey) :
    FollowStatus :=
  ⟨(ad (deriveFollowPda wallet a)).isSome,
   if (ad (deriveFollowPda wallet a)).isSome then some (deriveFollowPda wallet a) else none⟩

theorem batchCheckFollowStatus_eq (wallet : PubKey) (auths : List PubKey)
    (ad : Addr → Option (List Nat)) :
    batchCheckFollowStatus wallet auths ad =
      auths.foldl (fun res a => mapSet res a (followStatusOf wallet ad a)) [] := by
  unfold batchCheckFollowStatus
  simp only [List.map_map, List.zip_map', List.foldl_map, Function.comp]
  refine foldl_congr_mem auths _ _ (fun res a ha => ?_) []
  rw [find?_value_foldl_mapSet (deriveFollowPda wallet)
    (fun x y hxy => deriveFollowPda_injective wallet x y hxy) auths a ha]
  rfl

/-- C10: for every authority in the input, `batchCheckFollowStatus` reports
`isFollowing = true` exactly when an account exists (is non-null) at the
address derived from the ordered pair (connected wallet, authority) with the
follow seed, with `followPda` set to that derived address when the account
exists and null otherwise; and the determination depends only on account
existence — two remote answers agreeing on existence produce identical
results, so the follow account's payload is never decoded. -/
theorem C10_follow_status :
    (∀ (wallet : PubKey) (auths : List PubKey) (ad : Addr → Option (List Nat)),
      ∀ a ∈ auths,
        mapGet (batchCheckFollowStatus wallet auths ad) a =
          some ⟨(ad (deriveFollowPda wallet a)).isSome,
                if (ad (deriveFollowPda wallet a)).isSome
                then some (deriveFollowPda wallet a) else none⟩) ∧
    (∀ (wallet : PubKey) (auths : List PubKey) (ad1 ad2 : Addr → Option (List Nat)),
      (∀ x : Addr, (ad1 x).isSome = (ad2 x).isSome) →
      batchCheckFollowStatus wallet auths ad1 = batchCheckFollowStatus wallet auths ad2) := by
  constructor
  · intro wallet auths ad a ha
    rw [batchCheckFollowStatus_eq, foldl_mapSet_lookup (followStatusOf wallet ad) auths [] a,
      if_pos ha]
    rfl
  · intro wallet auths ad1 ad2 h
    rw [batchCheckFollowStatus_eq, batchCheckFollowStatus_eq]
    refine foldl_congr_mem auths _ _ (fun res a _ => ?_) []
    unfold followStatusOf
    rw [h (deriveFollowPda wallet a)]

/-- A remote answer where only the follow account for authority `2` exists. -/
def adW : Addr → Option (List Nat) :=
  fun x => if x = deriveFollowPda 1 2 then some [0] else none

/-- Witness for C10: with wallet `1` and authorities `[2, 3]` where only the
follow account for `2` exists, the map reports the derived pda and existence
for `2`; and two remote answers with equal existence but different payloads
give the same result map. -/
theorem C10_witness :
    mapGet (batchCheckFollowStatus 1 [2, 3] adW) 2 =
      some ⟨(adW (deriveFollowPda 1 2)).isSome,
            if (adW (deriveFollowPda 1 2)).isSome
            then some (deriveFollowPda 1 2) else none⟩ ∧
    batchCheckFollowStatus 1 [2, 3] (fun _ => some [1]) =
      batchCheckFollowStatus 1 [2, 3] (fun _ => some [2]) :=
  ⟨C10_follow_status.1 1 [2, 3] adW 2 (by decide),
   C10_follow_status.2 1 [2, 3] (fun _ => some [1]) (fun _ => some [2]) (fun _ => rfl)⟩

end Solagram
